import Mathlib

/-!
Shallow embedding of `src/HeuristicaTabu.py` (class `BuscaTabu`), a Tabu
Search solver for the assignment problem, together with proofs of the
specification's claims about it.

Modelling conventions:
* Costs and matrix entries are natural numbers (the reference matrix holds
  non-negative integers).
* `numpy` indexing errors (`IndexError` on an out-of-range non-negative
  index) are modelled by `Option`: a failing access yields `none`.
* The random source (`random.shuffle`, `random.random`) is modelled by an
  explicit oracle: a stream of naturals driving the Fisher–Yates shuffle
  inside `random.shuffle`, a stream of booleans for the outcomes of the
  draws `random.random() < 0.3`, and a stream of booleans for the outcomes
  of the wall-clock test `time.time() - tempo_inicio > 15`.  Quantifying
  over all oracles quantifies over all outcomes of the random source and of
  the clock.
* Inside the search loop the code calls `calcular_custo` only on valid
  permutations, where it cannot raise; the loop therefore uses the total
  function `custo`, which agrees with `calcular_custo` on all valid inputs.
-/

namespace HeuristicaTabu

/-- Movimento: a pair of agent indices `(i, j)` describing a swap, as built
by `gerar_vizinhanca` (always with `i < j`). -/
abbrev Movimento := Nat × Nat

/-- Matriz: the cost matrix `matriz_custos`, a list of rows. -/
abbrev Matriz := List (List Nat)

/-- Element access `self.matriz_custos[empresa, projeto]`: `none` models an
`IndexError` raised by numpy for an out-of-range (non-negative) index. -/
def matAccess (m : Matriz) (i j : Nat) : Option Nat :=
  (m.get? i).bind fun linha => linha.get? j

/-- Loop body of `calcular_custo` (lines 31-34): iterate over
`enumerate(solucao)` accumulating `custo_total`, propagating an index
error as `none`.  `i` is the running `empresa` index, `acc` the running
`custo_total`. -/
def calcCustoGo (m : Matriz) : List Nat → Nat → Nat → Option Nat
  | [], _, acc => some acc
  | projeto :: resto, i, acc =>
    (matAccess m i projeto).bind fun c => calcCustoGo m resto (i + 1) (acc + c)

/-- `BuscaTabu.calcular_custo` (lines 21-34): total cost of a solution.
The Python function only reads `self.matriz_custos`; it mutates nothing,
which the pure embedding reflects. -/
def calcular_custo (m : Matriz) (s : List Nat) : Option Nat :=
  calcCustoGo m s 0 0

/-- Total wrapper for `calcular_custo`, used by the search loop, where
every evaluated solution is a valid permutation and no error can occur
(`calcular_custo_valido` below makes the agreement precise). -/
def custo (m : Matriz) (s : List Nat) : Nat :=
  (calcular_custo m s).getD 0

/-- The simultaneous assignment
`novo_vizinho[i], novo_vizinho[j] = novo_vizinho[j], novo_vizinho[i]`
(line 63) on a fresh copy of the list: both right-hand sides are read from
the original value. -/
def swapL (s : List Nat) (i j : Nat) : List Nat :=
  (s.set i (s.getD j 0)).set j (s.getD i 0)

/-- `BuscaTabu.gerar_vizinhanca` (lines 48-68): for every `i` in
`range(n)` and `j` in `range(i+1, n)`, the pair of the swapped copy and
the move `(i, j)`, in loop order. -/
def gerar_vizinhanca (n : Nat) (s : List Nat) : List (List Nat × Movimento) :=
  (List.range n).flatMap fun i =>
    (List.range' (i + 1) (n - (i + 1))).map fun j => (swapL s i j, (i, j))

/-- Body of `random.shuffle`: for `i` from `len - 1` down to `1`, draw
`j = randbelow(i+1)` and swap positions `i` and `j`.  The oracle `f`
supplies the raw draws; taking them modulo `i + 1` ranges over exactly the
outcomes `randbelow(i+1)` can produce. -/
def shuffleAux (f : Nat → Nat) : Nat → List Nat → List Nat
  | 0, l => l
  | i + 1, l => shuffleAux f i (swapL l (i + 1) (f (i + 1) % (i + 2)))

/-- `BuscaTabu.gerar_solucao_inicial` (lines 36-46):
`projetos = list(range(self.n)); random.shuffle(projetos)`. -/
def gerar_solucao_inicial (f : Nat → Nat) (n : Nat) : List Nat :=
  shuffleAux f (n - 1) (List.range n)

/-- Lines 119-121: `lista_tabu.append(movimento)` followed by
`if len(lista_tabu) > tamanho_tabu: lista_tabu.pop(0)`. -/
def registrar (cap : Nat) (l : List Movimento) (mov : Movimento) : List Movimento :=
  let l1 := l ++ [mov]
  if cap < l1.length then l1.tail else l1

/-- Loop of lines 103-111: scan the neighbours keeping the best eligible
one seen so far.  `acc = none` models
`melhor_vizinho = None, melhor_custo_vizinho = float('inf')`; any finite
cost beats `float('inf')`. `mc` is `melhor_custo`, the best-known cost. -/
def selGo (m : Matriz) (tabu : List Movimento) (mc : Nat) :
    List (List Nat × Movimento) → Option (List Nat × Movimento × Nat) →
    Option (List Nat × Movimento × Nat)
  | [], acc => acc
  | p :: resto, acc =>
    if p.2 ∉ tabu ∨ custo m p.1 < mc then
      match acc with
      | none => selGo m tabu mc resto (some (p.1, p.2, custo m p.1))
      | some melhor =>
        if custo m p.1 < melhor.2.2 then selGo m tabu mc resto (some (p.1, p.2, custo m p.1))
        else selGo m tabu mc resto acc
    else selGo m tabu mc resto acc

/-- Selection of `melhor_vizinho, melhor_movimento, melhor_custo_vizinho`
(lines 99-111). -/
def selecionar (m : Matriz) (tabu : List Movimento) (mc : Nat)
    (vizinhos : List (List Nat × Movimento)) : Option (List Nat × Movimento × Nat) :=
  selGo m tabu mc vizinhos none

/-- Object state of class `BuscaTabu` as set up by `__init__`
(lines 6-19). -/
structure BuscaTabu where
  matriz_custos : Matriz
  n : Nat
  tamanho_tabu : Nat
  max_iter : Nat
  lista_tabu : List Movimento
deriving DecidableEq, Repr

/-- `BuscaTabu.__init__` (lines 6-19).  The constructor itself performs no
validation; the only operation that can fail is `np.array(matriz_custos)`,
which (modern numpy) raises `ValueError` on a ragged, inhomogeneous nested
list.  Rectangular matrices of any shape, including empty and non-square
ones, are accepted, and `self.n = len(matriz_custos)` is the row count. -/
def mkBuscaTabu (matriz_custos : Matriz) (tamanho_tabu max_iter : Nat) :
    Except String BuscaTabu :=
  if matriz_custos.all fun linha => linha.length == (matriz_custos.headD []).length then
    Except.ok ⟨matriz_custos, matriz_custos.length, tamanho_tabu, max_iter, []⟩
  else
    Except.error "ValueError: inhomogeneous input to np.array"

/-- Oracle for the random source and the clock: `shuf k` drives the `k`-th
call to `random.shuffle`, `draw k` is the outcome of the `k`-th test
`random.random() < 0.3`, and `tempo t` is the outcome of the wall-clock
test at the top of iteration `t`. -/
structure Oracle where
  shuf : Nat → Nat → Nat
  draw : Nat → Bool
  tempo : Nat → Bool

/-- Local state of one run of `busca_tabu` (lines 78-137), plus counters of
how many shuffles and draws have been consumed from the oracle. -/
structure Estado where
  solucao_atual : List Nat
  custo_atual : Nat
  melhor_solucao : List Nat
  melhor_custo : Nat
  iter_sem_melhorias : Nat
  lista_tabu : List Movimento
  shufCount : Nat
  drawCount : Nat
deriving DecidableEq, Repr

/-- Lines 94-129: generate the neighbourhood, select the best eligible
neighbour, and — when one exists (`if melhor_vizinho:`) — adopt it, record
its move, and update the best-known solution or the stagnation counter.
When no neighbour is selected the state is unchanged.  (For reachable
states the selected neighbour is a nonempty list, so Python's list
truthiness coincides with the `Option` match.) -/
def aceitar (b : BuscaTabu) (s : Estado) : Estado :=
  match selecionar b.matriz_custos s.lista_tabu s.melhor_custo
      (gerar_vizinhanca b.n s.solucao_atual) with
  | none => s
  | some (v, mov, c) =>
    let tabu1 := registrar b.tamanho_tabu s.lista_tabu mov
    if c < s.melhor_custo then
      { s with solucao_atual := v, custo_atual := c, lista_tabu := tabu1,
               melhor_solucao := v, melhor_custo := c, iter_sem_melhorias := 0 }
    else
      { s with solucao_atual := v, custo_atual := c, lista_tabu := tabu1,
               iter_sem_melhorias := s.iter_sem_melhorias + 1 }

/-- Lines 131-137: stagnation control.  When the no-improvement counter
exceeds 20, draw once; on success replace the current solution by a fresh
random one, recompute the current cost, and reset the counter. -/
def estagnacao (b : BuscaTabu) (ora : Oracle) (s : Estado) : Estado :=
  if 20 < s.iter_sem_melhorias then
    if ora.draw s.drawCount then
      let nova := gerar_solucao_inicial (ora.shuf s.shufCount) b.n
      { s with solucao_atual := nova,
               custo_atual := custo b.matriz_custos nova,
               iter_sem_melhorias := 0,
               shufCount := s.shufCount + 1,
               drawCount := s.drawCount + 1 }
    else
      { s with drawCount := s.drawCount + 1 }
  else s

/-- One iteration of the `for iteracao in range(self.max_iter)` loop body
after the time check (lines 94-137). -/
def tabuIter (b : BuscaTabu) (ora : Oracle) (s : Estado) : Estado :=
  estagnacao b ora (aceitar b s)

/-- The iteration loop (lines 89-137): `fuel` is the number of remaining
iterations, `t` the current iteration index; the wall-clock test at line 91
breaks out of the loop. -/
def tabuLoop (b : BuscaTabu) (ora : Oracle) : Nat → Nat → Estado → Estado
  | 0, _, s => s
  | fuel + 1, t, s =>
    if ora.tempo t then s
    else tabuLoop b ora fuel (t + 1) (tabuIter b ora s)

/-- Lines 78-87: initial state of a run of `busca_tabu`.  Note that
`lista_tabu` is the object's current list — `busca_tabu` never resets
it. -/
def estadoInicial (b : BuscaTabu) (ora : Oracle) : Estado :=
  let ini := gerar_solucao_inicial (ora.shuf 0) b.n
  let c := custo b.matriz_custos ini
  ⟨ini, c, ini, c, 0, b.lista_tabu, 1, 0⟩

/-- `BuscaTabu.busca_tabu` (lines 70-142): returns
`(melhor_solucao.copy(), melhor_custo)` together with the updated object
(whose `lista_tabu` was mutated in place during the run). -/
def busca_tabu (b : BuscaTabu) (ora : Oracle) : (List Nat × Nat) × BuscaTabu :=
  let sf := tabuLoop b ora b.max_iter 0 (estadoInicial b ora)
  ((sf.melhor_solucao, sf.melhor_custo), { b with lista_tabu := sf.lista_tabu })

/-- Eligibility of a neighbour in the selection loop (line 107): its move
is not tabu, or its cost beats the best-known cost (aspiration). -/
def Elig (m : Matriz) (tabu : List Movimento) (mc : Nat)
    (p : List Nat × Movimento) : Prop :=
  p.2 ∉ tabu ∨ custo m p.1 < mc

instance (m : Matriz) (tabu : List Movimento) (mc : Nat) (p : List Nat × Movimento) :
    Decidable (Elig m tabu mc p) := by
  unfold Elig; infer_instance

/-- Permutation invariant of the search state: the current and the
best-known solutions are permutations of `0..n-1`. -/
def EstInv (n : Nat) (s : Estado) : Prop :=
  s.solucao_atual.Perm (List.range n) ∧ s.melhor_solucao.Perm (List.range n)

instance (n : Nat) (s : Estado) : Decidable (EstInv n s) := by
  unfold EstInv; infer_instance

/-! ### Permutation lemmas for `swapL` and the shuffle -/

theorem getD_cons_set_perm (t : List Nat) (k a : Nat) (hk : k < t.length) :
    (t.getD k 0 :: t.set k a).Perm (a :: t) := by
  induction t generalizing k with
  | nil => simp at hk
  | cons b u ih =>
    cases k with
    | zero => simpa using List.Perm.swap a b u
    | succ k' =>
      have hk' : k' < u.length := by simpa using hk
      rw [List.getD_cons_succ, List.set_cons_succ]
      have p1 : (u.getD k' 0 :: b :: u.set k' a).Perm (b :: u.getD k' 0 :: u.set k' a) :=
        List.Perm.swap b (u.getD k' 0) _
      have p2 : (b :: u.getD k' 0 :: u.set k' a).Perm (b :: a :: u) :=
        (ih k' hk').cons b
      have p3 : (b :: a :: u).Perm (a :: b :: u) := List.Perm.swap a b u
      exact (p1.trans p2).trans p3

theorem swapL_perm (s : List Nat) (i j : Nat) (hi : i < s.length) (hj : j < s.length) :
    (swapL s i j).Perm s := by
  induction s generalizing i j with
  | nil => simp at hi
  | cons a t ih =>
    cases i with
    | zero =>
      cases j with
      | zero => simp [swapL]
      | succ j' =>
        have hj' : j' < t.length := by simpa using hj
        simpa [swapL] using getD_cons_set_perm t j' a hj'
    | succ i' =>
      have hi' : i' < t.length := by simpa using hi
      cases j with
      | zero =>
        simpa [swapL] using getD_cons_set_perm t i' a hi'
      | succ j' =>
        have hj' : j' < t.length := by simpa using hj
        simpa [swapL] using (ih i' j' hi' hj').cons a

theorem swapL_length (s : List Nat) (i j : Nat) : (swapL s i j).length = s.length := by
  simp [swapL]

theorem shuffleAux_perm (f : Nat → Nat) :
    ∀ (k : Nat) (l : List Nat), k < l.length → (shuffleAux f k l).Perm l := by
  intro k
  induction k with
  | zero => intro l _; exact List.Perm.refl l
  | succ k ih =>
    intro l hk
    have h1 : k + 1 < l.length := hk
    have h2 : f (k + 1) % (k + 2) < l.length :=
      lt_of_lt_of_le (Nat.mod_lt _ (Nat.succ_pos _)) h1
    have hswap := swapL_perm l (k + 1) (f (k + 1) % (k + 2)) h1 h2
    have hlen : k < (swapL l (k + 1) (f (k + 1) % (k + 2))).length := by
      rw [swapL_length]; omega
    exact (ih _ hlen).trans hswap

theorem gerar_solucao_inicial_perm (f : Nat → Nat) (n : Nat) :
    (gerar_solucao_inicial f n).Perm (List.range n) := by
  cases n with
  | zero => exact List.Perm.refl _
  | succ m =>
    have : m < (List.range (m + 1)).length := by simp
    simpa [gerar_solucao_inicial] using shuffleAux_perm f m (List.range (m + 1)) this

/-! ### Lemmas on `calcular_custo` -/

theorem get?_eq_some_getD (l : List Nat) (i : Nat) (h : i < l.length) :
    l.get? i = some (l.getD i 0) := by
  rw [List.get?_eq_getElem?, List.getElem?_eq_getElem h]
  congr 1
  rw [List.getD_eq_getElem?_getD, List.getElem?_eq_getElem h]
  rfl

theorem getD_mem_of_lt (l : List Nat) (i : Nat) (h : i < l.length) : l.getD i 0 ∈ l := by
  rw [List.getD_eq_getElem?_getD, List.getElem?_eq_getElem h]
  exact List.getElem_mem h

theorem row_get?_eq_some (m : Matriz) (r : Nat) (h : r < m.length) :
    m.get? r = some (m.getD r []) := by
  rw [List.get?_eq_getElem?, List.getElem?_eq_getElem h]
  congr 1
  rw [List.getD_eq_getElem?_getD, List.getElem?_eq_getElem h]
  rfl

theorem row_getD_mem (m : Matriz) (r : Nat) (h : r < m.length) : m.getD r [] ∈ m := by
  rw [List.getD_eq_getElem?_getD, List.getElem?_eq_getElem h]
  exact List.getElem_mem h

theorem matAccess_eq_some (m : Matriz) (r c : Nat) (hr : r < m.length)
    (hc : c < (m.getD r []).length) :
    matAccess m r c = some ((m.getD r []).getD c 0) := by
  unfold matAccess
  rw [row_get?_eq_some m r hr, Option.some_bind, get?_eq_some_getD _ c hc]

theorem matAccess_none_iff (m : Matriz) (n : Nat) (hm : m.length = n)
    (hsq : ∀ linha ∈ m, linha.length = n) (r c : Nat) :
    matAccess m r c = none ↔ n ≤ r ∨ n ≤ c := by
  by_cases hr : r < n
  · have hlen : (m.getD r []).length = n := hsq _ (row_getD_mem m r (by omega))
    by_cases hc : c < n
    · rw [matAccess_eq_some m r c (by omega) (by omega)]
      simp; omega
    · constructor
      · intro _; right; omega
      · intro _
        unfold matAccess
        rw [row_get?_eq_some m r (by omega), Option.some_bind,
          List.get?_eq_none.mpr (by omega)]
  · constructor
    · intro _; left; omega
    · intro _
      unfold matAccess
      rw [List.get?_eq_none.mpr (by omega), Option.none_bind]

theorem calcCustoGo_some (m : Matriz) :
    ∀ (s : List Nat) (i acc : Nat),
      (∀ k, k < s.length → i + k < m.length ∧
        s.getD k 0 < (m.getD (i + k) []).length) →
      calcCustoGo m s i acc =
        some (acc + ((List.range s.length).map
          (fun k => (m.getD (i + k) []).getD (s.getD k 0) 0)).sum) := by
  intro s
  induction s with
  | nil => intro i acc _; simp [calcCustoGo]
  | cons p resto ih =>
    intro i acc hb
    have h0 := hb 0 (by simp)
    simp only [List.getD_cons_zero, Nat.add_zero] at h0
    rw [calcCustoGo, matAccess_eq_some m i p h0.1 h0.2, Option.some_bind]
    rw [ih (i + 1) (acc + (m.getD i []).getD p 0) (by
      intro k hk
      have := hb (k + 1) (by simpa using Nat.succ_lt_succ hk)
      simpa [Nat.add_comm, Nat.add_assoc, Nat.add_left_comm] using this)]
    congr 1
    rw [List.length_cons, List.range_succ_eq_map]
    simp only [List.map_cons, List.map_map, List.sum_cons]
    have hmap : ((List.range resto.length).map
        ((fun k => (m.getD (i + k) []).getD ((p :: resto).getD k 0) 0) ∘ Nat.succ))
        = (List.range resto.length).map
          (fun k => (m.getD (i + 1 + k) []).getD (resto.getD k 0) 0) := by
      apply List.map_congr_left
      intro k _
      simp only [Function.comp_apply, List.getD_cons_succ]
      congr 2
      omega
    rw [hmap]
    simp only [List.getD_cons_zero, Nat.add_zero]
    omega

theorem calcCustoGo_none_iff (m : Matriz) :
    ∀ (s : List Nat) (i acc : Nat),
      (calcCustoGo m s i acc = none ↔
        ∃ k, k < s.length ∧ matAccess m (i + k) (s.getD k 0) = none) := by
  intro s
  induction s with
  | nil => intro i acc; simp [calcCustoGo]
  | cons p resto ih =>
    intro i acc
    rw [calcCustoGo]
    cases hacc : matAccess m i p with
    | none =>
      rw [Option.none_bind]
      constructor
      · intro _
        exact ⟨0, by simp, by simpa using hacc⟩
      · intro _
        rfl
    | some c =>
      rw [Option.some_bind, ih (i + 1) (acc + c)]
      constructor
      · rintro ⟨k, hk, hnone⟩
        refine ⟨k + 1, by simpa using Nat.succ_lt_succ hk, ?_⟩
        simpa [Nat.add_comm, Nat.add_assoc, Nat.add_left_comm] using hnone
      · rintro ⟨k, hk, hnone⟩
        cases k with
        | zero => simp [hacc] at hnone
        | succ k' =>
          refine ⟨k', by simpa using hk, ?_⟩
          simpa [Nat.add_comm, Nat.add_assoc, Nat.add_left_comm] using hnone

/-- Shared form of the claim about `calcular_custo` on valid inputs. -/
theorem calcular_custo_valido (m : Matriz) (n : Nat) (s : List Nat)
    (hm : m.length = n) (hsq : ∀ linha ∈ m, linha.length = n)
    (hs : s.length = n) (hval : ∀ x ∈ s, x < n) :
    calcular_custo m s =
      some (((List.range n).map
        (fun i => (m.getD i []).getD (s.getD i 0) 0)).sum) := by
  unfold calcular_custo
  rw [calcCustoGo_some m s 0 0 (by
    intro k hk
    constructor
    · omega
    · have hrow : m.getD (0 + k) [] ∈ m := by
        have hkm : 0 + k < m.length := by omega
        rw [List.getD_eq_getElem?_getD, List.getElem?_eq_getElem hkm]
        exact List.getElem_mem hkm
      rw [hsq _ hrow]
      have : s.getD k 0 ∈ s := by
        rw [List.getD_eq_getElem?_getD, List.getElem?_eq_getElem (by omega : k < s.length)]
        exact List.getElem_mem _
      exact hval _ this)]
  simp [hs]

/-! ### Lemmas on `gerar_vizinhanca` -/

/-- Lexicographic order on moves: the enumeration order of the two nested
loops of `gerar_vizinhanca`. -/
def lexMov (a b : Movimento) : Prop :=
  a.1 < b.1 ∨ (a.1 = b.1 ∧ a.2 < b.2)

instance (a b : Movimento) : Decidable (lexMov a b) := by
  unfold lexMov; infer_instance

theorem mem_gerar_vizinhanca (n : Nat) (s : List Nat) (v : List Nat) (mov : Movimento) :
    (v, mov) ∈ gerar_vizinhanca n s ↔
      ∃ i j, i < j ∧ j < n ∧ mov = (i, j) ∧ v = swapL s i j := by
  unfold gerar_vizinhanca
  simp only [List.mem_flatMap, List.mem_map, List.mem_range, List.mem_range'_1,
    Prod.mk.injEq]
  constructor
  · rintro ⟨i, hi, j, ⟨hj1, hj2⟩, hv, hmov⟩
    exact ⟨i, j, by omega, by omega, hmov.symm, hv.symm⟩
  · rintro ⟨i, j, hij, hjn, rfl, rfl⟩
    exact ⟨i, by omega, j, ⟨by omega, by omega⟩, rfl, rfl⟩

theorem length_gerar_vizinhanca_sum (n : Nat) (s : List Nat) :
    (gerar_vizinhanca n s).length =
      ((List.range n).map (fun i => n - (i + 1))).sum := by
  unfold gerar_vizinhanca
  rw [List.length_flatMap]
  congr 1
  apply List.map_congr_left
  intro i _
  simp

theorem dobro_soma_triangular :
    ∀ n : Nat, 2 * ((List.range n).map (fun i => n - (i + 1))).sum = n * (n - 1) := by
  intro n
  induction n with
  | zero => simp
  | succ m ih =>
    have hsplit : (List.range (m + 1)).map (fun i => m + 1 - (i + 1))
        = m :: (List.range m).map (fun i => m - (i + 1)) := by
      rw [List.range_succ_eq_map]
      simp only [List.map_cons, List.map_map]
      rw [show m + 1 - (0 + 1) = m by omega]
      congr 1
      apply List.map_congr_left
      intro i _
      simp only [Function.comp_apply]
      omega
    rw [hsplit]
    simp only [List.sum_cons]
    cases m with
    | zero => simp
    | succ p =>
      rw [Nat.mul_add, ih]
      simp only [Nat.add_sub_cancel]
      ring

theorem length_gerar_vizinhanca (n : Nat) (s : List Nat) :
    (gerar_vizinhanca n s).length = n * (n - 1) / 2 := by
  have h2 : 2 * (gerar_vizinhanca n s).length = n * (n - 1) := by
    rw [length_gerar_vizinhanca_sum]; exact dobro_soma_triangular n
  omega

theorem moves_gerar_vizinhanca (n : Nat) (s : List Nat) :
    (gerar_vizinhanca n s).map Prod.snd =
      (List.range n).flatMap fun i =>
        (List.range' (i + 1) (n - (i + 1))).map fun j => ((i, j) : Movimento) := by
  unfold gerar_vizinhanca
  rw [List.map_flatMap]
  congr 1
  funext i
  rw [List.map_map]
  rfl

theorem pairwise_lex_gerar_vizinhanca (n : Nat) (s : List Nat) :
    ((gerar_vizinhanca n s).map Prod.snd).Pairwise lexMov := by
  rw [moves_gerar_vizinhanca]
  rw [List.pairwise_flatMap]
  constructor
  · intro i _
    rw [List.pairwise_map]
    exact (List.pairwise_lt_range' _ _).imp fun h => Or.inr ⟨rfl, h⟩
  · apply (List.pairwise_lt_range n).imp
    intro i1 i2 h12 x hx y hy
    rw [List.mem_map] at hx hy
    obtain ⟨j1, _, rfl⟩ := hx
    obtain ⟨j2, _, rfl⟩ := hy
    exact Or.inl h12

/-! ### Lemmas on `registrar` (the tabu list update) -/

theorem registrar_length_le (cap : Nat) (l : List Movimento) (mov : Movimento)
    (h : l.length ≤ cap) : (registrar cap l mov).length ≤ cap := by
  unfold registrar
  by_cases hc : cap < (l ++ [mov]).length
  · rw [if_pos hc]
    simp at hc ⊢
    omega
  · rw [if_neg hc]
    simp at hc ⊢
    omega

theorem registrar_evict (cap : Nat) (l : List Movimento) (mov : Movimento)
    (h : cap < l.length + 1) : registrar cap l mov = (l ++ [mov]).tail := by
  unfold registrar
  rw [if_pos (by simp; omega)]

theorem registrar_append (cap : Nat) (l : List Movimento) (mov : Movimento)
    (h : l.length < cap) : registrar cap l mov = l ++ [mov] := by
  unfold registrar
  rw [if_neg (by simp; omega)]

theorem foldl_registrar (cap : Nat) :
    ∀ (ms : List Movimento) (l : List Movimento), l.length ≤ cap →
      ms.foldl (registrar cap) l = (l ++ ms).drop ((l ++ ms).length - cap) := by
  intro ms
  induction ms with
  | nil =>
    intro l h
    simp only [List.foldl_nil, List.append_nil]
    rw [show l.length - cap = 0 by omega]
    simp
  | cons mov ms ih =>
    intro l h
    rw [List.foldl_cons]
    by_cases hlt : l.length < cap
    · rw [ih _ (registrar_length_le cap l mov h),
        registrar_append cap l mov hlt]
      simp [List.append_assoc]
    · have hl : l.length = cap := by omega
      rw [ih _ (registrar_length_le cap l mov h),
        registrar_evict cap l mov (by omega)]
      cases l with
      | nil =>
        have hcap : cap = 0 := by simp at hl; omega
        subst hcap
        simp
      | cons a t =>
        have hcap : cap = t.length + 1 := by simp at hl; omega
        simp only [List.cons_append, List.tail_cons, List.append_assoc,
          List.singleton_append, List.nil_append]
        rw [show (a :: (t ++ mov :: ms)).length - cap
            = ((t ++ mov :: ms).length - cap) + 1 by simp; omega]
        rw [List.drop_succ_cons]

theorem foldl_registrar_nil (cap : Nat) (ms : List Movimento) :
    ms.foldl (registrar cap) [] = ms.drop (ms.length - cap) := by
  simpa using foldl_registrar cap ms [] (by simp)

/-! ### Specification of the selection loop -/

/-- Characterization of `selGo`: a returned candidate either comes from the
remaining neighbour list — in which case it is eligible, its cost is
minimal among the eligible ones and strictly below the accumulator and
every earlier eligible neighbour — or it is the accumulator itself, whose
cost no eligible neighbour beats. -/
theorem selGo_spec (m : Matriz) (tabu : List Movimento) (mc : Nat) :
    ∀ (vs : List (List Nat × Movimento)) (acc : Option (List Nat × Movimento × Nat))
      (v : List Nat) (mov : Movimento) (c : Nat),
      selGo m tabu mc vs acc = some (v, mov, c) →
      (∃ k, vs.get? k = some (v, mov) ∧ Elig m tabu mc (v, mov) ∧ c = custo m v ∧
        (∀ x, acc = some x → c < x.2.2) ∧
        (∀ i p, vs.get? i = some p → Elig m tabu mc p → c ≤ custo m p.1) ∧
        (∀ i p, i < k → vs.get? i = some p → Elig m tabu mc p → c < custo m p.1))
      ∨ (acc = some (v, mov, c) ∧
        (∀ i p, vs.get? i = some p → Elig m tabu mc p → c ≤ custo m p.1)) := by
  intro vs
  induction vs with
  | nil =>
    intro acc v mov c h
    right
    refine ⟨h, ?_⟩
    intro i p hp
    simp at hp
  | cons p0 resto ih =>
    obtain ⟨v0, mov0⟩ := p0
    intro acc v mov c h
    cases acc with
    | none =>
      rw [selGo] at h
      by_cases hel : mov0 ∉ tabu ∨ custo m v0 < mc
      · rw [if_pos hel] at h
        have helig : Elig m tabu mc (v0, mov0) := hel
        rcases ih _ v mov c h with
          ⟨k, hk, he, hc, hacc, hall, hbef⟩ | ⟨heq, hall⟩
        · left
          refine ⟨k + 1, by simpa using hk, he, hc, ?_, ?_, ?_⟩
          · intro x hx; cases hx
          · intro i p hp hpe
            cases i with
            | zero =>
              have hp0 : p = (v0, mov0) := by simpa using hp.symm
              subst hp0
              exact le_of_lt (hacc (v0, mov0, custo m v0) rfl)
            | succ i' => exact hall i' p (by simpa using hp) hpe
          · intro i p hik hp hpe
            cases i with
            | zero =>
              have hp0 : p = (v0, mov0) := by simpa using hp.symm
              subst hp0
              exact hacc (v0, mov0, custo m v0) rfl
            | succ i' => exact hbef i' p (by omega) (by simpa using hp) hpe
        · obtain ⟨hv, hmov, hc⟩ : v0 = v ∧ mov0 = mov ∧ custo m v0 = c := by
            simpa using heq
          subst hv; subst hmov; subst hc
          left
          refine ⟨0, by simp, helig, rfl, ?_, ?_, ?_⟩
          · intro x hx; cases hx
          · intro i p hp hpe
            cases i with
            | zero =>
              have hp0 : p = (v0, mov0) := by simpa using hp.symm
              subst hp0
              exact le_refl _
            | succ i' => exact hall i' p (by simpa using hp) hpe
          · intro i p hik _ _; omega
      · rw [if_neg hel] at h
        have hnel : ¬ Elig m tabu mc (v0, mov0) := hel
        rcases ih _ v mov c h with
          ⟨k, hk, he, hc, hacc, hall, hbef⟩ | ⟨heq, hall⟩
        · left
          refine ⟨k + 1, by simpa using hk, he, hc, hacc, ?_, ?_⟩
          · intro i p hp hpe
            cases i with
            | zero =>
              have hp0 : p = (v0, mov0) := by simpa using hp.symm
              subst hp0
              exact absurd hpe hnel
            | succ i' => exact hall i' p (by simpa using hp) hpe
          · intro i p hik hp hpe
            cases i with
            | zero =>
              have hp0 : p = (v0, mov0) := by simpa using hp.symm
              subst hp0
              exact absurd hpe hnel
            | succ i' => exact hbef i' p (by omega) (by simpa using hp) hpe
        · right
          refine ⟨heq, ?_⟩
          intro i p hp hpe
          cases i with
          | zero =>
            have hp0 : p = (v0, mov0) := by simpa using hp.symm
            subst hp0
            exact absurd hpe hnel
          | succ i' => exact hall i' p (by simpa using hp) hpe
    | some melhor =>
      rw [selGo] at h
      by_cases hel : mov0 ∉ tabu ∨ custo m v0 < mc
      · rw [if_pos hel] at h
        have helig : Elig m tabu mc (v0, mov0) := hel
        by_cases hcb : custo m v0 < melhor.2.2
        · rw [if_pos hcb] at h
          rcases ih _ v mov c h with
            ⟨k, hk, he, hc, hacc, hall, hbef⟩ | ⟨heq, hall⟩
          · left
            refine ⟨k + 1, by simpa using hk, he, hc, ?_, ?_, ?_⟩
            · intro x hx
              obtain rfl : melhor = x := by simpa using hx
              exact lt_trans (hacc (v0, mov0, custo m v0) rfl) hcb
            · intro i p hp hpe
              cases i with
              | zero =>
                have hp0 : p = (v0, mov0) := by simpa using hp.symm
                subst hp0
                exact le_of_lt (hacc (v0, mov0, custo m v0) rfl)
              | succ i' => exact hall i' p (by simpa using hp) hpe
            · intro i p hik hp hpe
              cases i with
              | zero =>
                have hp0 : p = (v0, mov0) := by simpa using hp.symm
                subst hp0
                exact hacc (v0, mov0, custo m v0) rfl
              | succ i' => exact hbef i' p (by omega) (by simpa using hp) hpe
          · obtain ⟨hv, hmov, hc⟩ : v0 = v ∧ mov0 = mov ∧ custo m v0 = c := by
              simpa using heq
            subst hv; subst hmov; subst hc
            left
            refine ⟨0, by simp, helig, rfl, ?_, ?_, ?_⟩
            · intro x hx
              obtain rfl : melhor = x := by simpa using hx
              exact hcb
            · intro i p hp hpe
              cases i with
              | zero =>
                have hp0 : p = (v0, mov0) := by simpa using hp.symm
                subst hp0
                exact le_refl _
              | succ i' => exact hall i' p (by simpa using hp) hpe
            · intro i p hik _ _; omega
        · rw [if_neg hcb] at h
          rcases ih _ v mov c h with
            ⟨k, hk, he, hc, hacc, hall, hbef⟩ | ⟨heq, hall⟩
          · have hlt : c < custo m v0 :=
              lt_of_lt_of_le (hacc melhor rfl) (by omega)
            left
            refine ⟨k + 1, by simpa using hk, he, hc, hacc, ?_, ?_⟩
            · intro i p hp hpe
              cases i with
              | zero =>
                have hp0 : p = (v0, mov0) := by simpa using hp.symm
                subst hp0
                exact le_of_lt hlt
              | succ i' => exact hall i' p (by simpa using hp) hpe
            · intro i p hik hp hpe
              cases i with
              | zero =>
                have hp0 : p = (v0, mov0) := by simpa using hp.symm
                subst hp0
                exact hlt
              | succ i' => exact hbef i' p (by omega) (by simpa using hp) hpe
          · right
            refine ⟨heq, ?_⟩
            have hcm : c = melhor.2.2 := by
              obtain rfl : melhor = (v, mov, c) := by simpa using heq
              rfl
            intro i p hp hpe
            cases i with
            | zero =>
              have hp0 : p = (v0, mov0) := by simpa using hp.symm
              subst hp0
              exact le_trans (le_of_eq hcm) (Nat.le_of_not_lt hcb)
            | succ i' => exact hall i' p (by simpa using hp) hpe
      · rw [if_neg hel] at h
        have hnel : ¬ Elig m tabu mc (v0, mov0) := hel
        rcases ih _ v mov c h with
          ⟨k, hk, he, hc, hacc, hall, hbef⟩ | ⟨heq, hall⟩
        · left
          refine ⟨k + 1, by simpa using hk, he, hc, hacc, ?_, ?_⟩
          · intro i p hp hpe
            cases i with
            | zero =>
              have hp0 : p = (v0, mov0) := by simpa using hp.symm
              subst hp0
              exact absurd hpe hnel
            | succ i' => exact hall i' p (by simpa using hp) hpe
          · intro i p hik hp hpe
            cases i with
            | zero =>
              have hp0 : p = (v0, mov0) := by simpa using hp.symm
              subst hp0
              exact absurd hpe hnel
            | succ i' => exact hbef i' p (by omega) (by simpa using hp) hpe
        · right
          refine ⟨heq, ?_⟩
          intro i p hp hpe
          cases i with
          | zero =>
            have hp0 : p = (v0, mov0) := by simpa using hp.symm
            subst hp0
            exact absurd hpe hnel
          | succ i' => exact hall i' p (by simpa using hp) hpe

/-- The candidate returned by `selecionar` is one of the neighbours. -/
theorem selecionar_mem (m : Matriz) (tabu : List Movimento) (mc : Nat)
    (vs : List (List Nat × Movimento)) (v : List Nat) (mov : Movimento) (c : Nat)
    (h : selecionar m tabu mc vs = some (v, mov, c)) : (v, mov) ∈ vs := by
  rcases selGo_spec m tabu mc vs none v mov c h with
    ⟨k, hk, _⟩ | ⟨heq, _⟩
  · exact List.get?_mem hk
  · cases heq

/-! ### Engine-level invariants -/

theorem selecionar_swap (b : BuscaTabu) (s : Estado) (v : List Nat)
    (mov : Movimento) (c : Nat)
    (hsel : selecionar b.matriz_custos s.lista_tabu s.melhor_custo
      (gerar_vizinhanca b.n s.solucao_atual) = some (v, mov, c)) :
    ∃ i j, i < j ∧ j < b.n ∧ v = swapL s.solucao_atual i j := by
  have hmem := selecionar_mem _ _ _ _ _ _ _ hsel
  rw [mem_gerar_vizinhanca] at hmem
  obtain ⟨i, j, hij, hjn, _, hv⟩ := hmem
  exact ⟨i, j, hij, hjn, hv⟩

theorem swapL_perm_of_perm_range (n : Nat) (s : List Nat) (i j : Nat)
    (hs : s.Perm (List.range n)) (hij : i < j) (hjn : j < n) :
    (swapL s i j).Perm (List.range n) := by
  have hlen : s.length = n := by
    have := hs.length_eq
    simpa using this
  exact (swapL_perm s i j (by omega) (by omega)).trans hs

theorem aceitar_inv (b : BuscaTabu) (s : Estado) (h : EstInv b.n s) :
    EstInv b.n (aceitar b s) := by
  unfold aceitar
  cases hsel : selecionar b.matriz_custos s.lista_tabu s.melhor_custo
      (gerar_vizinhanca b.n s.solucao_atual) with
  | none => exact h
  | some r =>
    obtain ⟨v, mov, c⟩ := r
    dsimp only
    obtain ⟨i, j, hij, hjn, hv⟩ := selecionar_swap b s v mov c hsel
    have hvp : v.Perm (List.range b.n) := by
      rw [hv]
      exact swapL_perm_of_perm_range b.n s.solucao_atual i j h.1 hij hjn
    by_cases hc : c < s.melhor_custo
    · rw [if_pos hc]
      exact ⟨hvp, hvp⟩
    · rw [if_neg hc]
      exact ⟨hvp, h.2⟩

theorem estagnacao_inv (b : BuscaTabu) (ora : Oracle) (s : Estado)
    (h : EstInv b.n s) : EstInv b.n (estagnacao b ora s) := by
  unfold estagnacao
  by_cases h1 : 20 < s.iter_sem_melhorias
  · rw [if_pos h1]
    by_cases h2 : ora.draw s.drawCount
    · rw [if_pos h2]
      exact ⟨gerar_solucao_inicial_perm _ _, h.2⟩
    · rw [if_neg h2]
      exact h
  · rw [if_neg h1]
    exact h

theorem tabuIter_inv (b : BuscaTabu) (ora : Oracle) (s : Estado)
    (h : EstInv b.n s) : EstInv b.n (tabuIter b ora s) :=
  estagnacao_inv b ora _ (aceitar_inv b s h)

theorem tabuLoop_inv (b : BuscaTabu) (ora : Oracle) :
    ∀ (fuel t : Nat) (s : Estado), EstInv b.n s →
      EstInv b.n (tabuLoop b ora fuel t s) := by
  intro fuel
  induction fuel with
  | zero => intro t s h; exact h
  | succ fuel ih =>
    intro t s h
    rw [tabuLoop]
    by_cases ht : ora.tempo t
    · rw [if_pos ht]; exact h
    · rw [if_neg ht]
      exact ih (t + 1) _ (tabuIter_inv b ora s h)

theorem estadoInicial_inv (b : BuscaTabu) (ora : Oracle) :
    EstInv b.n (estadoInicial b ora) :=
  ⟨gerar_solucao_inicial_perm _ _, gerar_solucao_inicial_perm _ _⟩

/-! ### Monotonicity of the best-known cost -/

theorem aceitar_melhor_le (b : BuscaTabu) (s : Estado) :
    (aceitar b s).melhor_custo ≤ s.melhor_custo := by
  unfold aceitar
  cases hsel : selecionar b.matriz_custos s.lista_tabu s.melhor_custo
      (gerar_vizinhanca b.n s.solucao_atual) with
  | none => exact le_refl _
  | some r =>
    obtain ⟨v, mov, c⟩ := r
    dsimp only
    by_cases hc : c < s.melhor_custo
    · rw [if_pos hc]; exact le_of_lt hc
    · rw [if_neg hc]

theorem estagnacao_melhor_eq (b : BuscaTabu) (ora : Oracle) (s : Estado) :
    (estagnacao b ora s).melhor_custo = s.melhor_custo := by
  unfold estagnacao
  by_cases h1 : 20 < s.iter_sem_melhorias
  · rw [if_pos h1]
    by_cases h2 : ora.draw s.drawCount
    · rw [if_pos h2]
    · rw [if_neg h2]
  · rw [if_neg h1]

theorem estagnacao_melhor_sol_eq (b : BuscaTabu) (ora : Oracle) (s : Estado) :
    (estagnacao b ora s).melhor_solucao = s.melhor_solucao := by
  unfold estagnacao
  by_cases h1 : 20 < s.iter_sem_melhorias
  · rw [if_pos h1]
    by_cases h2 : ora.draw s.drawCount
    · rw [if_pos h2]
    · rw [if_neg h2]
  · rw [if_neg h1]

theorem estagnacao_tabu_eq (b : BuscaTabu) (ora : Oracle) (s : Estado) :
    (estagnacao b ora s).lista_tabu = s.lista_tabu := by
  unfold estagnacao
  by_cases h1 : 20 < s.iter_sem_melhorias
  · rw [if_pos h1]
    by_cases h2 : ora.draw s.drawCount
    · rw [if_pos h2]
    · rw [if_neg h2]
  · rw [if_neg h1]

theorem tabuIter_melhor_le (b : BuscaTabu) (ora : Oracle) (s : Estado) :
    (tabuIter b ora s).melhor_custo ≤ s.melhor_custo := by
  unfold tabuIter
  rw [estagnacao_melhor_eq]
  exact aceitar_melhor_le b s

theorem tabuLoop_melhor_le (b : BuscaTabu) (ora : Oracle) :
    ∀ (fuel t : Nat) (s : Estado),
      (tabuLoop b ora fuel t s).melhor_custo ≤ s.melhor_custo := by
  intro fuel
  induction fuel with
  | zero => intro t s; exact le_refl _
  | succ fuel ih =>
    intro t s
    rw [tabuLoop]
    by_cases ht : ora.tempo t
    · rw [if_pos ht]
    · rw [if_neg ht]
      exact le_trans (ih (t + 1) _) (tabuIter_melhor_le b ora s)

/-! ### Restart frame and tabu-list persistence -/

theorem estagnacao_restart (b : BuscaTabu) (ora : Oracle) (s : Estado)
    (h1 : 20 < s.iter_sem_melhorias) (h2 : ora.draw s.drawCount = true) :
    estagnacao b ora s =
      { s with solucao_atual := gerar_solucao_inicial (ora.shuf s.shufCount) b.n,
               custo_atual := custo b.matriz_custos
                 (gerar_solucao_inicial (ora.shuf s.shufCount) b.n),
               iter_sem_melhorias := 0,
               shufCount := s.shufCount + 1,
               drawCount := s.drawCount + 1 } := by
  unfold estagnacao
  rw [if_pos h1, if_pos (by simp [h2])]

theorem registrar_ne_nil (cap : Nat) (l : List Movimento) (mov : Movimento)
    (hcap : 1 ≤ cap) : registrar cap l mov ≠ [] := by
  intro hnil
  unfold registrar at hnil
  by_cases hc : cap < (l ++ [mov]).length
  · rw [if_pos hc] at hnil
    rcases l with _ | ⟨a, t⟩
    · simp at hc
      omega
    · simp at hnil
  · rw [if_neg hc] at hnil
    simp at hnil

theorem aceitar_tabu (b : BuscaTabu) (s : Estado) :
    (aceitar b s).lista_tabu = s.lista_tabu ∨
      ∃ mov, (aceitar b s).lista_tabu = registrar b.tamanho_tabu s.lista_tabu mov := by
  unfold aceitar
  cases hsel : selecionar b.matriz_custos s.lista_tabu s.melhor_custo
      (gerar_vizinhanca b.n s.solucao_atual) with
  | none => exact Or.inl rfl
  | some r =>
    obtain ⟨v, mov, c⟩ := r
    dsimp only
    right
    refine ⟨mov, ?_⟩
    by_cases hc : c < s.melhor_custo
    · rw [if_pos hc]
    · rw [if_neg hc]

theorem tabuIter_tabu_ne_nil (b : BuscaTabu) (ora : Oracle) (s : Estado)
    (hcap : 1 ≤ b.tamanho_tabu) (hne : s.lista_tabu ≠ []) :
    (tabuIter b ora s).lista_tabu ≠ [] := by
  unfold tabuIter
  rw [estagnacao_tabu_eq]
  rcases aceitar_tabu b s with heq | ⟨mov, heq⟩
  · rw [heq]; exact hne
  · rw [heq]; exact registrar_ne_nil _ _ _ hcap

/-- Concrete all-zero 2×2 instance used to exhibit tabu-list persistence
across two calls to `busca_tabu` on the same object. -/
def exemploTabu : BuscaTabu :=
  ⟨[[0, 0], [0, 0]], 2, 10, 1, []⟩

/-- Concrete oracle: all shuffle draws are 0, no restart, no timeout. -/
def oraculoTrivial : Oracle :=
  ⟨fun _ _ => 0, fun _ => false, fun _ => false⟩

/-! ### Pointwise description of `swapL` -/

theorem swapL_getD_fst (s : List Nat) (i j : Nat) (hi : i < s.length)
    (hij : i ≠ j) : (swapL s i j).getD i 0 = s.getD j 0 := by
  unfold swapL
  rw [List.getD_eq_getElem?_getD, List.getElem?_set_ne (fun h => hij h.symm),
    List.getElem?_set_self (by simpa using hi), Option.getD_some]

theorem swapL_getD_snd (s : List Nat) (i j : Nat) (hj : j < s.length) :
    (swapL s i j).getD j 0 = s.getD i 0 := by
  unfold swapL
  rw [List.getD_eq_getElem?_getD, List.getElem?_set_self (by simpa using hj),
    Option.getD_some]

theorem swapL_getD_outro (s : List Nat) (i j p : Nat) (hpi : p ≠ i) (hpj : p ≠ j) :
    (swapL s i j).getD p 0 = s.getD p 0 := by
  unfold swapL
  rw [List.getD_eq_getElem?_getD, List.getElem?_set_ne (fun h => hpj h.symm),
    List.getElem?_set_ne (fun h => hpi h.symm), ← List.getD_eq_getElem?_getD]

/-- Concrete instance used by the restart-frame witness: a 1×1 matrix, where
the neighbourhood is empty and `aceitar` leaves the state unchanged. -/
def exemploReinicio : BuscaTabu :=
  ⟨[[5]], 1, 10, 100, []⟩

/-- Concrete stagnated state: 21 iterations without improvement. -/
def estadoReinicio : Estado :=
  ⟨[0], 5, [0], 5, 21, [], 1, 0⟩

/-- Concrete oracle whose stagnation draws all succeed. -/
def oraculoReinicio : Oracle :=
  ⟨fun _ _ => 0, fun _ => true, fun _ => false⟩

/-! ### Claim theorems -/

/-- C1: for every cost matrix and every outcome of the random source, the
solution returned by `busca_tabu` is a permutation of `0..N-1` of length
`N`; moreover the permutation invariant `EstInv` on the current and
best-known solutions holds at the initial state and is preserved by every
iteration and by the whole loop, hence at every point of the run. -/
theorem busca_tabu_permutacao :
    (∀ (b : BuscaTabu) (ora : Oracle) (s : Estado),
      EstInv b.n s → EstInv b.n (tabuIter b ora s)) ∧
    (∀ (b : BuscaTabu) (ora : Oracle) (fuel t : Nat) (s : Estado),
      EstInv b.n s → EstInv b.n (tabuLoop b ora fuel t s)) ∧
    (∀ (b : BuscaTabu) (ora : Oracle), EstInv b.n (estadoInicial b ora)) ∧
    (∀ (b : BuscaTabu) (ora : Oracle),
      ((busca_tabu b ora).1.1).Perm (List.range b.n) ∧
      ((busca_tabu b ora).1.1).length = b.n) := by
  refine ⟨tabuIter_inv, fun b ora fuel t s h => tabuLoop_inv b ora fuel t s h,
    estadoInicial_inv, ?_⟩
  intro b ora
  have hfin : EstInv b.n (tabuLoop b ora b.max_iter 0 (estadoInicial b ora)) :=
    tabuLoop_inv b ora _ _ _ (estadoInicial_inv b ora)
  refine ⟨hfin.2, ?_⟩
  have := hfin.2.length_eq
  simpa using this

/-- Witness for C1 at a concrete 2×2 instance and concrete oracle. -/
theorem busca_tabu_permutacao_witness :
    EstInv exemploTabu.n
        (tabuIter exemploTabu oraculoTrivial (estadoInicial exemploTabu oraculoTrivial)) ∧
      ((busca_tabu exemploTabu oraculoTrivial).1.1).Perm (List.range exemploTabu.n) :=
  ⟨busca_tabu_permutacao.1 exemploTabu oraculoTrivial _ (by decide),
   (busca_tabu_permutacao.2.2.2 exemploTabu oraculoTrivial).1⟩

/-- C2: on a square matrix of size `N` and a solution of length `N` whose
entries are valid task indices, `calcular_custo` returns exactly the sum
over agents `i` of `matriz_custos[i][s[i]]` (purity holds by construction:
the embedding is a pure function of the matrix and the solution). -/
theorem calcular_custo_soma (m : Matriz) (n : Nat) (s : List Nat)
    (hm : m.length = n) (hsq : ∀ linha ∈ m, linha.length = n)
    (hs : s.length = n) (hval : ∀ x ∈ s, x < n) :
    calcular_custo m s =
      some (((List.range n).map
        (fun i => (m.getD i []).getD (s.getD i 0) 0)).sum) :=
  calcular_custo_valido m n s hm hsq hs hval

/-- Witness for C2 on a fixed 2×2 matrix. -/
theorem calcular_custo_soma_witness :
    calcular_custo [[1, 2], [3, 4]] [1, 0] =
      some (((List.range 2).map
        (fun i => (([[1, 2], [3, 4]] : Matriz).getD i []).getD
          (([1, 0] : List Nat).getD i 0) 0)).sum) :=
  calcular_custo_soma [[1, 2], [3, 4]] 2 [1, 0]
    (by decide) (by decide) (by decide) (by decide)

/-- C3: whenever the selection loop of an iteration returns a candidate,
that candidate is an eligible neighbour of minimal cost, the first one in
enumeration order among those of minimal cost, and it is adopted as the new
current solution and current cost by the update step. -/
theorem selecao_melhor_elegivel :
    (∀ (m : Matriz) (tabu : List Movimento) (mc : Nat)
        (vs : List (List Nat × Movimento)) (v : List Nat) (mov : Movimento) (c : Nat),
      selecionar m tabu mc vs = some (v, mov, c) →
      ∃ k, vs.get? k = some (v, mov) ∧ Elig m tabu mc (v, mov) ∧ c = custo m v ∧
        (∀ i p, vs.get? i = some p → Elig m tabu mc p → c ≤ custo m p.1) ∧
        (∀ i p, i < k → vs.get? i = some p → Elig m tabu mc p → c < custo m p.1)) ∧
    (∀ (b : BuscaTabu) (s : Estado) (v : List Nat) (mov : Movimento) (c : Nat),
      selecionar b.matriz_custos s.lista_tabu s.melhor_custo
          (gerar_vizinhanca b.n s.solucao_atual) = some (v, mov, c) →
      (aceitar b s).solucao_atual = v ∧ (aceitar b s).custo_atual = c) := by
  constructor
  · intro m tabu mc vs v mov c h
    rcases selGo_spec m tabu mc vs none v mov c h with
      ⟨k, hk, he, hc, _, hall, hbef⟩ | ⟨heq, _⟩
    · exact ⟨k, hk, he, hc, hall, hbef⟩
    · cases heq
  · intro b s v mov c hsel
    unfold aceitar
    rw [hsel]
    dsimp only
    by_cases hc : c < s.melhor_custo
    · rw [if_pos hc]; exact ⟨rfl, rfl⟩
    · rw [if_neg hc]; exact ⟨rfl, rfl⟩

/-- Witness for C3: on the 2×2 matrix `[[1,2],[3,4]]` with empty tabu list
the single neighbour of `[0,1]` is selected. -/
theorem selecao_melhor_elegivel_witness :
    ∃ k, (gerar_vizinhanca 2 [0, 1]).get? k = some ([1, 0], (0, 1)) ∧
      Elig [[1, 2], [3, 4]] [] 10 ([1, 0], (0, 1)) ∧
      (5 : Nat) = custo [[1, 2], [3, 4]] [1, 0] ∧
      (∀ i p, (gerar_vizinhanca 2 [0, 1]).get? i = some p →
        Elig [[1, 2], [3, 4]] [] 10 p → 5 ≤ custo [[1, 2], [3, 4]] p.1) ∧
      (∀ i p, i < k → (gerar_vizinhanca 2 [0, 1]).get? i = some p →
        Elig [[1, 2], [3, 4]] [] 10 p → 5 < custo [[1, 2], [3, 4]] p.1) :=
  selecao_melhor_elegivel.1 [[1, 2], [3, 4]] [] 10
    (gerar_vizinhanca 2 [0, 1]) [1, 0] (0, 1) 5 (by decide)

/-- C4 counterexample: the claim asserts that after inserting
`tamanho_tabu + k` moves the oldest `k` are absent from a membership query,
with duplicates explicitly allowed.  With capacity 1 and the duplicate
insertions `(0,1), (0,1)`, the oldest move `(0,1)` is still a member of the
resulting list, so the claim as stated is false. -/
theorem lista_tabu_fifo_contraexemplo :
    List.foldl (registrar 1) [] [((0 : Nat), (1 : Nat)), (0, 1)] = [(0, 1)] ∧
    ((0 : Nat), (1 : Nat)) ∈ List.foldl (registrar 1) [] [((0 : Nat), (1 : Nat)), (0, 1)] := by
  decide

/-- C4 (amended): a record step never leaves more than `tamanho_tabu`
entries; exactly the single oldest entry is evicted on overflow; a move is
appended to its own slot even when already present; and after inserting
`tamanho_tabu + k` pairwise-distinct moves the oldest `k` are absent and
the remaining ones present in a membership query. -/
theorem lista_tabu_fifo :
    (∀ (cap : Nat) (l : List Movimento) (mov : Movimento),
      l.length ≤ cap → (registrar cap l mov).length ≤ cap) ∧
    (∀ (cap : Nat) (l : List Movimento) (mov : Movimento),
      l.length = cap → 1 ≤ cap → registrar cap l mov = l.tail ++ [mov]) ∧
    (∀ (cap : Nat) (l : List Movimento) (mov : Movimento),
      l.length < cap → registrar cap l mov = l ++ [mov]) ∧
    (∀ (cap k : Nat) (ms : List Movimento), ms.Nodup → ms.length = cap + k →
      (∀ i p, i < k → ms.get? i = some p → p ∉ ms.foldl (registrar cap) []) ∧
      (∀ i p, k ≤ i → ms.get? i = some p → p ∈ ms.foldl (registrar cap) [])) := by
  refine ⟨registrar_length_le, ?_, registrar_append, ?_⟩
  · intro cap l mov hlen hcap
    rw [registrar_evict cap l mov (by omega)]
    cases l with
    | nil => simp at hlen; omega
    | cons a t => simp
  · intro cap k ms hnd hlen
    have hdrop : ms.foldl (registrar cap) [] = ms.drop k := by
      rw [foldl_registrar_nil]
      congr 1
      omega
    rw [hdrop]
    constructor
    · intro i p hik hgi
      have hptake : p ∈ ms.take k := by
        apply List.get?_mem (n := i)
        rw [List.get?_take hik]
        exact hgi
      exact fun hpdrop =>
        (List.disjoint_take_drop hnd (le_refl k)) hptake hpdrop
    · intro i p hki hgi
      apply List.get?_mem (n := i - k)
      rw [List.get?_eq_getElem?, List.getElem?_drop,
        show k + (i - k) = i by omega, ← List.get?_eq_getElem?]
      exact hgi

/-- Witness for C4 (amended): capacity 2, three distinct moves; the oldest
is evicted, the two most recent remain. -/
theorem lista_tabu_fifo_witness :
    ((0 : Nat), (1 : Nat)) ∉
        List.foldl (registrar 2) [] [((0 : Nat), (1 : Nat)), (0, 2), (1, 2)] ∧
      ((0 : Nat), (2 : Nat)) ∈
        List.foldl (registrar 2) [] [((0 : Nat), (1 : Nat)), (0, 2), (1, 2)] :=
  ⟨(lista_tabu_fifo.2.2.2 2 1 [(0, 1), (0, 2), (1, 2)] (by decide) (by decide)).1
      0 (0, 1) (by decide) (by decide),
   (lista_tabu_fifo.2.2.2 2 1 [(0, 1), (0, 2), (1, 2)] (by decide) (by decide)).2
      1 (0, 2) (by decide) (by decide)⟩

/-- C5: for a solution of length `N`, `gerar_vizinhanca` yields exactly
`N(N-1)/2` candidates — one per index pair `i < j`, in ascending `i` then
ascending `j` order (`lexMov`-sorted moves) — and each candidate equals the
input with positions `i` and `j` exchanged and everything else unchanged
(the input itself is untouched: the embedding is pure and each candidate is
built from a copy). -/
theorem gerar_vizinhanca_spec (n : Nat) (s : List Nat) (hs : s.length = n) :
    (gerar_vizinhanca n s).length = n * (n - 1) / 2 ∧
    (∀ v mov, (v, mov) ∈ gerar_vizinhanca n s ↔
      ∃ i j, i < j ∧ j < n ∧ mov = (i, j) ∧ v = swapL s i j) ∧
    ((gerar_vizinhanca n s).map Prod.snd).Pairwise lexMov ∧
    (∀ v i j, (v, (i, j)) ∈ gerar_vizinhanca n s →
      v.length = s.length ∧ v.getD i 0 = s.getD j 0 ∧ v.getD j 0 = s.getD i 0 ∧
      ∀ p, p ≠ i → p ≠ j → v.getD p 0 = s.getD p 0) := by
  refine ⟨length_gerar_vizinhanca n s, mem_gerar_vizinhanca n s,
    pairwise_lex_gerar_vizinhanca n s, ?_⟩
  intro v i j hmem
  rw [mem_gerar_vizinhanca] at hmem
  obtain ⟨i', j', hij, hjn, hmov, hv⟩ := hmem
  obtain ⟨rfl, rfl⟩ : i = i' ∧ j = j' := by simpa using hmov
  subst hv
  have hi : i < s.length := by omega
  have hj : j < s.length := by omega
  exact ⟨swapL_length s i j, swapL_getD_fst s i j hi (by omega),
    swapL_getD_snd s i j hj,
    fun p hpi hpj => swapL_getD_outro s i j p hpi hpj⟩

/-- Witness for C5 on the solution `[0, 1, 2]`. -/
theorem gerar_vizinhanca_spec_witness :
    (gerar_vizinhanca 3 [0, 1, 2]).length = 3 * (3 - 1) / 2 :=
  (gerar_vizinhanca_spec 3 [0, 1, 2] (by decide)).1

/-- C6: the best-known cost never increases: each iteration can only lower
it, the whole loop can only lower it, and the returned cost is at most the
cost of the initial random solution. -/
theorem melhor_custo_monotono :
    (∀ (b : BuscaTabu) (ora : Oracle) (s : Estado),
      (tabuIter b ora s).melhor_custo ≤ s.melhor_custo) ∧
    (∀ (b : BuscaTabu) (ora : Oracle) (fuel t : Nat) (s : Estado),
      (tabuLoop b ora fuel t s).melhor_custo ≤ s.melhor_custo) ∧
    (∀ (b : BuscaTabu) (ora : Oracle),
      (busca_tabu b ora).1.2 ≤
        custo b.matriz_custos (gerar_solucao_inicial (ora.shuf 0) b.n)) :=
  ⟨tabuIter_melhor_le,
   fun b ora fuel t s => tabuLoop_melhor_le b ora fuel t s,
   fun b ora => tabuLoop_melhor_le b ora b.max_iter 0 (estadoInicial b ora)⟩

/-- C7 counterexample: the constructor accepts the empty matrix (with
`n = 0`) and a non-square rectangular 3×2 matrix (with `n = 3`) without
any error, contradicting the claim that such inputs fail with InvalidInput
at construction time. -/
theorem mkBuscaTabu_contraexemplo :
    mkBuscaTabu [] 10 100 = Except.ok ⟨[], 0, 10, 100, []⟩ ∧
    mkBuscaTabu [[1, 2], [3, 4], [5, 6]] 10 100 =
      Except.ok ⟨[[1, 2], [3, 4], [5, 6]], 3, 10, 100, []⟩ := by
  constructor <;> rfl

/-- C7 (amended): construction performs no squareness or emptiness
validation — every matrix whose rows all have the length of the first row
(including the empty matrix and rectangular non-square ones) is accepted
silently, with `n` set to the number of rows and an empty tabu list; only a
ragged nested list fails (numpy's `ValueError` in `np.array`). -/
theorem mkBuscaTabu_sem_validacao (m : Matriz) (cap mi : Nat)
    (hrect : ∀ linha ∈ m, linha.length = (m.headD []).length) :
    mkBuscaTabu m cap mi = Except.ok ⟨m, m.length, cap, mi, []⟩ := by
  unfold mkBuscaTabu
  have hall : m.all (fun linha => linha.length == (m.headD []).length) = true := by
    rw [List.all_eq_true]
    intro x hx
    simpa using hrect x hx
  rw [if_pos hall]

/-- Witness for C7 (amended) on a rectangular non-square matrix. -/
theorem mkBuscaTabu_sem_validacao_witness :
    mkBuscaTabu [[1, 2], [3, 4], [5, 6]] 15 200 =
      Except.ok ⟨[[1, 2], [3, 4], [5, 6]], 3, 15, 200, []⟩ :=
  mkBuscaTabu_sem_validacao [[1, 2], [3, 4], [5, 6]] 15 200 (by decide)

/-- C8 counterexample: on the square 2×2 matrix, the solution `[0]` has
length `1 ≠ 2` and valid entries, yet `calcular_custo` returns the partial
sum `1` instead of failing with an error. -/
theorem calcular_custo_sem_validacao_contraexemplo :
    calcular_custo [[1, 2], [3, 4]] [0] = some 1 := by
  rfl

/-- C8 (amended): `calcular_custo` performs no input validation of its own.
On a square matrix of size `N` it fails (with an `IndexError` from numpy,
modelled as `none`) exactly when some enumerated position `k < len(s)` is
out of range — the row index `k ≥ N` (over-long solution) or the entry
`s[k] ≥ N`; a solution all of whose positions are in range, in particular
a too-short one with valid entries, returns a sum without error. -/
theorem calcular_custo_erros :
    (∀ (m : Matriz) (n : Nat) (s : List Nat), m.length = n →
      (∀ linha ∈ m, linha.length = n) →
      (calcular_custo m s = none ↔
        ∃ k, k < s.length ∧ (n ≤ k ∨ n ≤ s.getD k 0))) ∧
    (∀ (m : Matriz) (n : Nat) (s : List Nat), m.length = n →
      (∀ linha ∈ m, linha.length = n) →
      (∀ k, k < s.length → k < n ∧ s.getD k 0 < n) →
      calcular_custo m s =
        some (((List.range s.length).map
          (fun k => (m.getD k []).getD (s.getD k 0) 0)).sum)) := by
  constructor
  · intro m n s hm hsq
    unfold calcular_custo
    rw [calcCustoGo_none_iff]
    constructor
    · rintro ⟨k, hk, hnone⟩
      rw [matAccess_none_iff m n hm hsq] at hnone
      exact ⟨k, hk, by simpa using hnone⟩
    · rintro ⟨k, hk, hor⟩
      refine ⟨k, hk, ?_⟩
      rw [matAccess_none_iff m n hm hsq]
      simpa using hor
  · intro m n s hm hsq hb
    unfold calcular_custo
    rw [calcCustoGo_some m s 0 0 (by
      intro k hk
      obtain ⟨h1, h2⟩ := hb k hk
      constructor
      · omega
      · rw [hsq _ (row_getD_mem m (0 + k) (by omega))]
        simpa using h2)]
    simp

/-- Witness for C8 (amended): on the 2×2 matrix the solution `[0, 5]` has
an out-of-range entry, and the error characterization applies to it. -/
theorem calcular_custo_erros_witness :
    calcular_custo [[1, 2], [3, 4]] [0, 5] = none ↔
      ∃ k, k < ([0, 5] : List Nat).length ∧
        (2 ≤ k ∨ 2 ≤ ([0, 5] : List Nat).getD k 0) :=
  calcular_custo_erros.1 [[1, 2], [3, 4]] 2 [0, 5] (by decide) (by decide)

/-- C9: when, after the acceptance step of an iteration, the stagnation
counter exceeds 20 and the probabilistic draw succeeds, the iteration ends
with the current solution replaced by a freshly generated random
permutation, the current cost recomputed as the cost of that new solution
and the counter reset to 0, while the best-known solution, the best-known
cost and the tabu list are exactly those left by the acceptance step —
the restart does not touch them. -/
theorem reinicio_frame (b : BuscaTabu) (ora : Oracle) (s : Estado)
    (h1 : 20 < (aceitar b s).iter_sem_melhorias)
    (h2 : ora.draw (aceitar b s).drawCount = true) :
    (tabuIter b ora s).solucao_atual =
      gerar_solucao_inicial (ora.shuf (aceitar b s).shufCount) b.n ∧
    ((tabuIter b ora s).solucao_atual).Perm (List.range b.n) ∧
    (tabuIter b ora s).custo_atual =
      custo b.matriz_custos ((tabuIter b ora s).solucao_atual) ∧
    (tabuIter b ora s).iter_sem_melhorias = 0 ∧
    (tabuIter b ora s).melhor_solucao = (aceitar b s).melhor_solucao ∧
    (tabuIter b ora s).melhor_custo = (aceitar b s).melhor_custo ∧
    (tabuIter b ora s).lista_tabu = (aceitar b s).lista_tabu := by
  unfold tabuIter
  rw [estagnacao_restart b ora (aceitar b s) h1 h2]
  exact ⟨rfl, gerar_solucao_inicial_perm _ _, rfl, rfl, rfl, rfl, rfl⟩

/-- Witness for C9: a stagnated 1×1 instance whose draw succeeds. -/
theorem reinicio_frame_witness :
    (tabuIter exemploReinicio oraculoReinicio estadoReinicio).solucao_atual =
      gerar_solucao_inicial
        (oraculoReinicio.shuf (aceitar exemploReinicio estadoReinicio).shufCount)
        exemploReinicio.n ∧
    ((tabuIter exemploReinicio oraculoReinicio estadoReinicio).solucao_atual).Perm
      (List.range exemploReinicio.n) ∧
    (tabuIter exemploReinicio oraculoReinicio estadoReinicio).custo_atual =
      custo exemploReinicio.matriz_custos
        ((tabuIter exemploReinicio oraculoReinicio estadoReinicio).solucao_atual) ∧
    (tabuIter exemploReinicio oraculoReinicio estadoReinicio).iter_sem_melhorias = 0 ∧
    (tabuIter exemploReinicio oraculoReinicio estadoReinicio).melhor_solucao =
      (aceitar exemploReinicio estadoReinicio).melhor_solucao ∧
    (tabuIter exemploReinicio oraculoReinicio estadoReinicio).melhor_custo =
      (aceitar exemploReinicio estadoReinicio).melhor_custo ∧
    (tabuIter exemploReinicio oraculoReinicio estadoReinicio).lista_tabu =
      (aceitar exemploReinicio estadoReinicio).lista_tabu :=
  reinicio_frame exemploReinicio oraculoReinicio estadoReinicio
    (by decide) (by decide)

/-- C10: `busca_tabu` never clears `lista_tabu`: a run starts from the
object's current list (empty only right after construction) and writes the
final list back to the object; once non-empty the list stays non-empty
through every iteration (for a positive capacity).  Concretely, on the
all-zero 2×2 instance a first call records the move `(0, 1)`; a second call
on the returned object starts with `[(0, 1)]` still forbidden, so its only
candidate is rejected and its final current solution stays at the shuffled
initial `[1, 0]`, while the same run on a fresh object accepts the swap and
ends at `[0, 1]`. -/
theorem lista_tabu_persiste :
    (∀ (b : BuscaTabu) (ora : Oracle),
      (estadoInicial b ora).lista_tabu = b.lista_tabu) ∧
    (∀ (b : BuscaTabu) (ora : Oracle),
      (busca_tabu b ora).2.lista_tabu =
        (tabuLoop b ora b.max_iter 0 (estadoInicial b ora)).lista_tabu) ∧
    (∀ (b : BuscaTabu) (ora : Oracle) (s : Estado),
      1 ≤ b.tamanho_tabu → s.lista_tabu ≠ [] →
        (tabuIter b ora s).lista_tabu ≠ []) ∧
    ((busca_tabu exemploTabu oraculoTrivial).2.lista_tabu = [(0, 1)] ∧
      (busca_tabu (busca_tabu exemploTabu oraculoTrivial).2 oraculoTrivial).2.lista_tabu
        = [(0, 1)] ∧
      (tabuLoop (busca_tabu exemploTabu oraculoTrivial).2 oraculoTrivial 1 0
        (estadoInicial (busca_tabu exemploTabu oraculoTrivial).2 oraculoTrivial)).solucao_atual
        = [1, 0] ∧
      (tabuLoop exemploTabu oraculoTrivial 1 0
        (estadoInicial exemploTabu oraculoTrivial)).solucao_atual = [0, 1]) := by
  refine ⟨fun b ora => rfl, fun b ora => rfl,
    fun b ora s hcap hne => tabuIter_tabu_ne_nil b ora s hcap hne, ?_⟩
  exact ⟨by decide, by decide, by decide, by decide⟩

/-- Witness for C10: the persistence conjunct applied to the object
returned by the first call on the concrete instance. -/
theorem lista_tabu_persiste_witness :
    (tabuIter (busca_tabu exemploTabu oraculoTrivial).2 oraculoTrivial
      (estadoInicial (busca_tabu exemploTabu oraculoTrivial).2 oraculoTrivial)).lista_tabu
      ≠ [] :=
  lista_tabu_persiste.2.2.1 (busca_tabu exemploTabu oraculoTrivial).2 oraculoTrivial
    (estadoInicial (busca_tabu exemploTabu oraculoTrivial).2 oraculoTrivial)
    (by decide) (by decide)

end HeuristicaTabu
